import Mathlib

/-!
# socks5-server: admission gate, timeout wrapper and startup path

Shallow embedding of `server.go`.

* A Go channel of `struct{}` carries no data, so it is modelled by its capacity
  and the number of buffered elements.  A channel operation that would block
  returns `none`.
* Values the program obtains from its environment (the outcome of the wrapped
  listener's `Accept`, the outcome of the wrapped stream's `Read`, `Write` and
  `Close`, the clock, the result of `env.Parse`, `socks5.New`, `net.Listen`
  and `Serve`) are arguments of the embedded functions.
* `int` and `time.Duration` are 64-bit signed integers; `time.Time` is a
  number of nanoseconds and `Time.Add` is integer addition.  `env.Parse` reads
  an `int` variable with 32 bits.
-/

namespace Socks5

/-! ## Channels -/

/-- Go `error` values. -/
abbrev Error := String

/-- Buffered channel of `struct{}`: `cap` is the buffer size, `len` the number
of buffered elements.  A value handed directly to a waiting receiver is a send
followed by a receive.  With `cap = 0` a send completes only together with a
receive, which is not represented: the results about the semaphore take
`cap ≥ 1`. -/
structure Chan where
  cap : Nat
  len : Nat
deriving DecidableEq, Repr

/-- Builtin `make(chan struct{}, n)`: panics (`none`) when `n` is negative. -/
def Chan.make (n : Int) : Option Chan :=
  if 0 ≤ n then some { cap := n.toNat, len := 0 } else none

/-- Send `ch <- struct{}{}`: completes when the buffer has room, otherwise
blocks (`none`). -/
def Chan.send (ch : Chan) : Option Chan :=
  if ch.len < ch.cap then some { ch with len := ch.len + 1 } else none

/-- Receive `<-ch`: completes when the buffer is non-empty, otherwise blocks
(`none`). -/
def Chan.recv (ch : Chan) : Option Chan :=
  if 0 < ch.len then some { ch with len := ch.len - 1 } else none

/-! ## Underlying stream -/

/-- Observable state of the wrapped `net.Conn`: the deadlines last requested
through `SetReadDeadline` / `SetWriteDeadline` (in nanoseconds, `none` when
never requested) and how many times its `Close` was called. -/
structure NetConn where
  id : Nat
  readDeadline : Option Int
  writeDeadline : Option Int
  closeCalls : Nat
deriving DecidableEq, Repr

/-- Method `SetReadDeadline` of the wrapped stream. -/
def NetConn.SetReadDeadline (c : NetConn) (t : Int) : NetConn :=
  { c with readDeadline := some t }

/-- Method `SetWriteDeadline` of the wrapped stream. -/
def NetConn.SetWriteDeadline (c : NetConn) (t : Int) : NetConn :=
  { c with writeDeadline := some t }

/-- Method `Close` of the wrapped stream; the error it returns is supplied by
the environment. -/
def NetConn.Close (c : NetConn) (e : Option Error) : NetConn × Option Error :=
  ({ c with closeCalls := c.closeCalls + 1 }, e)

/-- Result `(n, err)` of a `Read` or `Write`. -/
abbrev RWResult := Int × Option Error

/-- Behaviour of the wrapped stream's `Read` and `Write`, which may depend on
the stream's state (in particular its deadlines) and on the buffer. -/
structure StreamOps where
  Read : NetConn → List Nat → RWResult
  Write : NetConn → List Nat → RWResult

/-! ## timeoutConn -/

/-- Go struct `timeoutConn`; durations are in nanoseconds. -/
structure timeoutConn where
  Conn : NetConn
  readTimeout : Int
  writeTimeout : Int
deriving DecidableEq, Repr

/-- Method `timeoutConn.Read`, called at clock reading `now`. -/
def timeoutConn.Read (ops : StreamOps) (t : timeoutConn) (now : Int) (b : List Nat) :
    timeoutConn × RWResult :=
  let c := t.Conn.SetReadDeadline (now + t.readTimeout)
  ({ t with Conn := c }, ops.Read c b)

/-- Method `timeoutConn.Write`, called at clock reading `now`. -/
def timeoutConn.Write (ops : StreamOps) (t : timeoutConn) (now : Int) (b : List Nat) :
    timeoutConn × RWResult :=
  let c := t.Conn.SetWriteDeadline (now + t.writeTimeout)
  ({ t with Conn := c }, ops.Write c b)

/-! ## limitListener and limitConn -/

/-- Go struct `limitListener`.  The embedded `net.Listener` is the environment:
the outcome of its `Accept` is an argument of `limitListener.finish`. -/
structure limitListener where
  sem : Chan
  readTimeout : Int
  writeTimeout : Int
deriving DecidableEq, Repr

/-- Go struct `limitConn`.  The closure `release` acts on the listener's
channel, which is passed explicitly. -/
structure limitConn where
  Conn : timeoutConn
  release : Chan → Option Chan

/-- Line 51 of `limitListener.Accept`: `l.sem <- struct{}{}`. -/
def limitListener.acquire (l : limitListener) : Option limitListener :=
  match l.sem.send with
  | none => none
  | some s => some { l with sem := s }

/-- Lines 52-61 of `limitListener.Accept`: the wrapped listener's `Accept`
returned `under`. -/
def limitListener.finish (l : limitListener) (under : Except Error NetConn) :
    Option (limitListener × Except Error limitConn) :=
  match under with
  | .error err =>
    match l.sem.recv with
    | none => none
    | some s => some ({ l with sem := s }, .error err)
  | .ok c =>
    some (l, .ok
      { Conn := { Conn := c, readTimeout := l.readTimeout, writeTimeout := l.writeTimeout }
        release := fun sem => sem.recv })

/-- Method `limitListener.Accept` run without interference: `none` when the
call blocks. -/
def limitListener.Accept (l : limitListener) (under : Except Error NetConn) :
    Option (limitListener × Except Error limitConn) :=
  match l.acquire with
  | none => none
  | some l1 => l1.finish under

/-- Method `limitConn.Close` on the shared channel `sem`; `e` is what the
wrapped stream's `Close` returns.  `none` when `release` blocks. -/
def limitConn.Close (h : limitConn) (sem : Chan) (e : Option Error) :
    Option (Chan × limitConn × Option Error) :=
  match h.release sem with
  | none => none
  | some sem1 =>
    let r := h.Conn.Conn.Close e
    some (sem1, { h with Conn := { h.Conn with Conn := r.1 } }, r.2)

/-- Promoted method `limitConn.Read` (that of the embedded `timeoutConn`). -/
def limitConn.Read (ops : StreamOps) (h : limitConn) (now : Int) (b : List Nat) :
    limitConn × RWResult :=
  let r := h.Conn.Read ops now b
  ({ h with Conn := r.1 }, r.2)

/-- Promoted method `limitConn.Write` (that of the embedded `timeoutConn`). -/
def limitConn.Write (ops : StreamOps) (h : limitConn) (now : Int) (b : List Nat) :
    limitConn × RWResult :=
  let r := h.Conn.Write ops now b
  ({ h with Conn := r.1 }, r.2)

/-! ## Interleavings of Accept and Close -/

/-- A handle returned by `Accept`, with the number of `Close` calls completed
on it. -/
structure Handle where
  conn : limitConn
  closes : Nat

/-- State of the admission gate: the listener, the number of `Accept` calls that
passed line 51 and have not returned, and the handles returned so far. -/
structure Gate where
  l : limitListener
  inflight : Nat
  handles : List Handle

/-- Atomic steps of the goroutines using the gate. -/
inductive Event where
  /-- an `Accept` call completes line 51 -/
  | acquire
  /-- in an `Accept` call past line 51, the wrapped `Accept` returns a stream -/
  | underOk (c : NetConn)
  /-- in an `Accept` call past line 51, the wrapped `Accept` returns an error -/
  | underErr (e : Error)
  /-- a `Close` call on the `i`-th returned handle; the wrapped `Close` returns `e` -/
  | close (i : Nat) (e : Option Error)

/-- One step; `none` when the step is not enabled (the operation blocks, no
`Accept` call is past line 51, or the handle does not exist). -/
def step (s : Gate) : Event → Option Gate
  | .acquire =>
    match s.l.acquire with
    | none => none
    | some l1 => some { s with l := l1, inflight := s.inflight + 1 }
  | .underOk c =>
    if 0 < s.inflight then
      match s.l.finish (.ok c) with
      | some (l1, .ok h) =>
        some { l := l1, inflight := s.inflight - 1,
               handles := s.handles ++ [{ conn := h, closes := 0 }] }
      | _ => none
    else none
  | .underErr e =>
    if 0 < s.inflight then
      match s.l.finish (.error e) with
      | some (l1, .error _) => some { s with l := l1, inflight := s.inflight - 1 }
      | _ => none
    else none
  | .close i e =>
    match s.handles[i]? with
    | none => none
    | some h =>
      match h.conn.Close s.l.sem e with
      | none => none
      | some (sem1, c1, _) =>
        some { s with l := { s.l with sem := sem1 },
                      handles := s.handles.set i { conn := c1, closes := h.closes + 1 } }

/-- Run a finite interleaving. -/
def run (s : Gate) : List Event → Option Gate
  | [] => some s
  | e :: es =>
    match step s e with
    | none => none
    | some s1 => run s1 es

/-- Number of held admission slots: tokens in the semaphore. -/
def Gate.held (s : Gate) : Nat := s.l.sem.len

/-- Total number of completed `Close` calls. -/
def Gate.totalCloses (s : Gate) : Nat := (s.handles.map (fun h => h.closes)).sum

/-! ## Configuration and startup -/

/-- Go struct `params`. -/
structure params where
  User : String
  Password : String
  Port : String
  AllowedDestFqdn : String
  AllowedIPs : List String
  ListenIP : String
  RequireAuth : Bool
  MaxConns : Int
  TimeoutSec : Int
deriving DecidableEq, Repr

/-- Two's-complement wrap-around of 64-bit signed arithmetic. -/
def wrapInt64 (x : Int) : Int := (x + 2 ^ 63) % 2 ^ 64 - 2 ^ 63

/-- Constant `time.Second`, in nanoseconds. -/
def Second : Int := 1000000000

/-- Expression `time.Duration(n) * time.Second`. -/
def secondsDuration (n : Int) : Int := wrapInt64 (n * Second)

/-- Go type `net.IP`, a byte slice; `nil` is the empty list. -/
abbrev IP := List Nat

/-- Value `socks5.UserPassAuthenticator` with its `StaticCredentials` map,
given as the list of its (user, password) entries. -/
inductive Authenticator where
  | UserPassAuthenticator (Credentials : List (String × String))
deriving DecidableEq, Repr

/-- Rule set built by `PermitDestAddrPattern(pattern)`. -/
inductive RuleSet where
  | PermitDestAddrPattern (pattern : String)
deriving DecidableEq, Repr

/-- Fields of `socks5.Config` that `main` assigns (the logger is left out);
an empty `AuthMethods` and a `none` `Rules` are the zero values. -/
structure SocksConfig where
  AuthMethods : List Authenticator
  Rules : Option RuleSet
deriving DecidableEq, Repr

/-- Externally visible actions of `main`. -/
inductive Effect where
  /-- calls `log.Fatalf` / `log.Fatalln`: the message is logged and the process exits -/
  | fatal (msg : String)
  /-- calls `log.Println` / `log.Printf` -/
  | print (msg : String)
  /-- calls `socks5.New(conf)` -/
  | socksNew (conf : SocksConfig)
  /-- calls `server.SetIPWhitelist(ips)` -/
  | setIPWhitelist (ips : List IP)
  /-- calls `net.Listen(network, addr)` -/
  | listen (network addr : String)
  /-- run-time panic -/
  | panic
  /-- calls `server.Serve(l)` -/
  | serve (l : limitListener)
deriving DecidableEq, Repr

/-- What `main` obtains from outside: the parsed environment, `net.ParseIP`,
and the errors (`none` for `nil`) of `socks5.New`, `net.Listen` and `Serve`. -/
structure Env where
  Parse : Except Error params
  ParseIP : String → IP
  New : SocksConfig → Option Error
  Listen : String → String → Option Error
  Serve : limitListener → Option Error

/-- Lines 84-93 of `main`: `.error msg` is the `log.Fatalln` branch; otherwise
the log output of the block and the value left in `socksConf.AuthMethods`. -/
def selectAuth (cfg : params) : Except String (List Effect × List Authenticator) :=
  if cfg.RequireAuth then
    if cfg.User == "" || cfg.Password == "" then
      .error "REQUIRE_AUTH=true, но PROXY_USER/PROXY_PASSWORD не заданы"
    else
      .ok ([], [.UserPassAuthenticator [(cfg.User, cfg.Password)]])
  else
    .ok ([.print "Warning: proxy без авторизации! Это небезопасно."], [])

/-- Lines 95-97 of `main`: the value left in `socksConf.Rules`. -/
def destRules (cfg : params) : Option RuleSet :=
  if cfg.AllowedDestFqdn != "" then some (.PermitDestAddrPattern cfg.AllowedDestFqdn) else none

/-- Lines 104-111 of `main`: the argument of `SetIPWhitelist` when it is
called, `none` when it is not. -/
def ipWhitelist (ParseIP : String → IP) (cfg : params) : Option (List IP) :=
  if cfg.AllowedIPs.length > 0 then some (cfg.AllowedIPs.map ParseIP) else none

/-- Lines 113-116 of `main`. -/
def listenAddr (cfg : params) : String :=
  if cfg.ListenIP != "" then cfg.ListenIP ++ ":" ++ cfg.Port else ":" ++ cfg.Port

/-- Lines 123-128 of `main`: `none` when `make` panics. -/
def newLimitListener (cfg : params) : Option limitListener :=
  match Chan.make cfg.MaxConns with
  | none => none
  | some ch =>
    some { sem := ch
           readTimeout := secondsDuration cfg.TimeoutSec
           writeTimeout := secondsDuration cfg.TimeoutSec }

/-- Function `main`: its trace of effects, in order. -/
def main (w : Env) : List Effect :=
  match w.Parse with
  | .error err => [.fatal ("Failed to parse env: " ++ err)]
  | .ok cfg =>
    match selectAuth cfg with
    | .error msg => [.fatal msg]
    | .ok (logged, auths) =>
      let socksConf : SocksConfig := { AuthMethods := auths, Rules := destRules cfg }
      let t1 := logged ++ [.socksNew socksConf]
      match w.New socksConf with
      | some err => t1 ++ [.fatal ("Ошибка создания socks5 сервера: " ++ err)]
      | none =>
        let t2 := t1 ++
          (match ipWhitelist w.ParseIP cfg with
            | some ips => [.setIPWhitelist ips]
            | none => [])
        let t3 := t2 ++ [.listen "tcp" (listenAddr cfg)]
        match w.Listen "tcp" (listenAddr cfg) with
        | some err => t3 ++ [.fatal ("Не удалось слушать " ++ listenAddr cfg ++ ": " ++ err)]
        | none =>
          match newLimitListener cfg with
          | none => t3 ++ [.panic]
          | some limitedLn =>
            let t4 := t3 ++ [.print ("SOCKS5 proxy слушает на " ++ listenAddr cfg), .serve limitedLn]
            match w.Serve limitedLn with
            | some err => t4 ++ [.fatal ("Ошибка сервера: " ++ err)]
            | none => t4

/-- The effect binds a listener. -/
def Effect.isListen : Effect → Bool
  | .listen _ _ => true
  | _ => false

/-- The effect starts serving. -/
def Effect.isServe : Effect → Bool
  | .serve _ => true
  | _ => false

/-- The effect is a fatal exit. -/
def Effect.isFatal : Effect → Bool
  | .fatal _ => true
  | _ => false

/-- Initial state of the admission gate around the listener `main` builds. -/
def newGate (cfg : params) : Option Gate :=
  match newLimitListener cfg with
  | none => none
  | some l => some { l := l, inflight := 0, handles := [] }

/-! ## Interleavings with the two statements of Close apart -/

/-- Line 70 of `limitConn.Close`: `l.release()` on the shared channel `sem`;
`none` when it blocks. -/
def limitConn.closeRelease (h : limitConn) (sem : Chan) : Option Chan :=
  h.release sem

/-- Line 71 of `limitConn.Close`: the wrapped stream's `Close`, which returns
`e`. -/
def limitConn.closeStream (h : limitConn) (e : Option Error) : limitConn × Option Error :=
  let r := h.Conn.Conn.Close e
  ({ h with Conn := { h.Conn with Conn := r.1 } }, r.2)

/-- A handle returned by `Accept`, with the number of `Close` calls on it that
passed line 70 (`released`) and the number that returned (`closed`). -/
structure TrackedHandle where
  conn : limitConn
  released : Nat
  closed : Nat

/-- State of the admission gate when the two statements of `Close` are separate
steps. -/
structure FineGate where
  l : limitListener
  inflight : Nat
  handles : List TrackedHandle

/-- Atomic steps of the goroutines, `Close` taking two. -/
inductive FineEvent where
  /-- an `Accept` call completes line 51 -/
  | acquire
  /-- in an `Accept` call past line 51, the wrapped `Accept` returns a stream -/
  | underOk (c : NetConn)
  /-- in an `Accept` call past line 51, the wrapped `Accept` returns an error -/
  | underErr (e : Error)
  /-- a `Close` call on the `i`-th returned handle completes line 70 -/
  | closeRelease (i : Nat)
  /-- a `Close` call on the `i`-th returned handle, past line 70, completes line 71;
  the wrapped `Close` returns `e` -/
  | closeStream (i : Nat) (e : Option Error)

/-- One step; `none` when the step is not enabled (the channel operation
blocks, no `Accept` call is past line 51, the handle does not exist, or no
`Close` call on it is past line 70). -/
def fineStep (s : FineGate) : FineEvent → Option FineGate
  | .acquire =>
    match s.l.acquire with
    | none => none
    | some l1 => some { s with l := l1, inflight := s.inflight + 1 }
  | .underOk c =>
    if 0 < s.inflight then
      match s.l.finish (.ok c) with
      | some (l1, .ok h) =>
        some { l := l1, inflight := s.inflight - 1,
               handles := s.handles ++ [{ conn := h, released := 0, closed := 0 }] }
      | _ => none
    else none
  | .underErr e =>
    if 0 < s.inflight then
      match s.l.finish (.error e) with
      | some (l1, .error _) => some { s with l := l1, inflight := s.inflight - 1 }
      | _ => none
    else none
  | .closeRelease i =>
    match s.handles[i]? with
    | none => none
    | some h =>
      match h.conn.closeRelease s.l.sem with
      | none => none
      | some sem1 =>
        some { s with l := { s.l with sem := sem1 },
                      handles := s.handles.set i { h with released := h.released + 1 } }
  | .closeStream i e =>
    match s.handles[i]? with
    | none => none
    | some h =>
      if h.closed < h.released then
        some { s with handles :=
                 s.handles.set i { h with conn := (h.conn.closeStream e).1,
                                          closed := h.closed + 1 } }
      else none

/-- Run a finite interleaving. -/
def fineRun (s : FineGate) : List FineEvent → Option FineGate
  | [] => some s
  | e :: es =>
    match fineStep s e with
    | none => none
    | some s1 => fineRun s1 es

/-- Initial state around the listener `main` builds. -/
def newFineGate (cfg : params) : Option FineGate :=
  match newLimitListener cfg with
  | none => none
  | some l => some { l := l, inflight := 0, handles := [] }

/-- Number of held admission slots: tokens in the semaphore. -/
def FineGate.held (s : FineGate) : Nat := s.l.sem.len

/-- Number of open handles: returned by `Accept`, no `Close` call on them has
returned. -/
def FineGate.numOpen (s : FineGate) : Nat :=
  (s.handles.filter (fun h => h.closed == 0)).length

/-- Number of handles whose slot is not released: no `Close` call on them has
passed line 70. -/
def FineGate.numUnreleased (s : FineGate) : Nat :=
  (s.handles.filter (fun h => h.released == 0)).length

/-- Number of `Close` calls between line 70 and line 71: slot released, stream
not yet closed. -/
def FineGate.numMidClose (s : FineGate) : Nat :=
  (s.handles.map (fun h => h.released - h.closed)).sum

/-- Range of an `int` field as `env.Parse` fills it: the library reads the
variable with `strconv.ParseInt(v, 10, 32)`, so a value outside 32 bits is a
parse error and never reaches `cfg`. -/
def fitsInt32 (n : Int) : Prop := -2 ^ 31 ≤ n ∧ n < 2 ^ 31

/-! ## Parts of the protocol engine and of the rule set, not in `server.go` -/

/-- Modelled from the spec: the engine's source check installed by
`SetIPWhitelist` (the method and the engine's connection handling are not in
`server.go`).  "True if the Source Filter set is empty, otherwise true iff the
address is a member."  `none` stands for no whitelist installed. -/
def IsSourcePermitted (filter : Option (List IP)) (sourceIP : IP) : Bool :=
  match filter with
  | none => true
  | some ips => ips.isEmpty || ips.contains sourceIP

/-- Stages of handling one admitted connection in the engine. -/
inductive ConnStage where
  | sourceCheck (permitted : Bool)
  | negotiate
  | reject
deriving DecidableEq, Repr

/-- Modelled from the spec: the engine's handling of a connection, which is not
in `server.go`.  "This check occurs at admission time, before any protocol
negotiation, so a rejected source incurs no handshake cost." -/
def serveConn (filter : Option (List IP)) (sourceIP : IP) : List ConnStage :=
  if IsSourcePermitted filter sourceIP then [.sourceCheck true, .negotiate]
  else [.sourceCheck false, .reject]

/-- Wildcard `*`: `k` accepts some suffix of the input. -/
def starMatch (k : List Char → Bool) : List Char → Bool
  | [] => k []
  | c :: s => k (c :: s) || starMatch k s

/-- Modelled from the spec: glob-style matching of a hostname against a
pattern (the matcher behind `PermitDestAddrPattern` is not in `server.go`).
`*` matches any run of characters, every other character matches itself,
case-sensitively. -/
def globMatch : List Char → List Char → Bool
  | [], s => s.isEmpty
  | p :: ps, s =>
    if p = '*' then starMatch (globMatch ps) s
    else
      match s with
      | [] => false
      | c :: cs => p == c && globMatch ps cs

/-- Modelled from the spec: `IsDestinationPermitted(hostname)` (the rule set's
`Allow` method is not in `server.go`).  "Under Unrestricted, always true.
Under FQDNPattern, performs glob-style matching against the configured
pattern." -/
def IsDestinationPermitted (rules : Option RuleSet) (hostname : String) : Bool :=
  match rules with
  | none => true
  | some (.PermitDestAddrPattern p) => globMatch p.toList hostname.toList

/-- The handle `h` at a later moment, when its wrapped stream is in state `cur`. -/
def limitConn.withStream (h : limitConn) (cur : NetConn) : limitConn :=
  { h with Conn := { h.Conn with Conn := cur } }

/-- Declarative reading of a wildcard pattern: `*` stands for any run of
characters, every other character for itself. -/
inductive GlobMatches : List Char → List Char → Prop where
  | nil : GlobMatches [] []
  | star (ps t s : List Char) : GlobMatches ps s → GlobMatches ('*' :: ps) (t ++ s)
  | char (p : Char) (ps s : List Char) : p ≠ '*' → GlobMatches ps s →
      GlobMatches (p :: ps) (p :: s)

/-! ## Concrete configurations and states -/

/-- Configuration without authentication, two admission slots, 300 s timeout. -/
def cfgTwo : params :=
  { User := "", Password := "", Port := "1080", AllowedDestFqdn := "", AllowedIPs := [],
    ListenIP := "0.0.0.0", RequireAuth := false, MaxConns := 2, TimeoutSec := 300 }

/-- As `cfgTwo`, with a single admission slot. -/
def cfgOne : params := { cfgTwo with MaxConns := 1 }

/-- Authentication required, user set, password empty. -/
def cfgEmptyPassword : params := { cfgTwo with RequireAuth := true, User := "alice" }

/-- Authentication required, both credentials set. -/
def cfgAuth : params := { cfgTwo with RequireAuth := true, User := "alice", Password := "secret" }

/-- As `cfgTwo`, with `ALLOWED_IPS=10.0.0.1`. -/
def cfgSourceFilter : params := { cfgTwo with AllowedIPs := ["10.0.0.1"] }

/-- As `cfgTwo`, with `ALLOWED_DEST_FQDN=*.example.com`. -/
def cfgDestPattern : params := { cfgTwo with AllowedDestFqdn := "*.example.com" }

/-- A fresh stream numbered `n`. -/
def freshConn (n : Nat) : NetConn :=
  { id := n, readDeadline := none, writeDeadline := none, closeCalls := 0 }

/-- The handle `limitListener.finish` returns for stream `c` with timeout `d`. -/
def handleOf (c : NetConn) (d : Int) : Handle :=
  { conn := { Conn := { Conn := c, readTimeout := d, writeTimeout := d }
              release := fun sem => sem.recv }
    closes := 0 }

/-- The gate `main` builds from `cfgTwo`. -/
def gateTwo : Gate :=
  { l := { sem := { cap := 2, len := 0 }, readTimeout := 300000000000,
           writeTimeout := 300000000000 }
    inflight := 0, handles := [] }

/-- Two `Accept` calls that both succeed. -/
def evsTwoAccepts : List Event :=
  [.acquire, .underOk (freshConn 0), .acquire, .underOk (freshConn 1)]

/-- State of `gateTwo` after `evsTwoAccepts`. -/
def stateTwoAccepted : Gate :=
  { l := { sem := { cap := 2, len := 2 }, readTimeout := 300000000000,
           writeTimeout := 300000000000 }
    inflight := 0
    handles := [handleOf (freshConn 0) 300000000000, handleOf (freshConn 1) 300000000000] }

/-- State of `stateTwoAccepted` after one `Close` of handle 0. -/
def stateOneClosed : Gate :=
  { l := { sem := { cap := 2, len := 1 }, readTimeout := 300000000000,
           writeTimeout := 300000000000 }
    inflight := 0
    handles :=
      [{ handleOf { freshConn 0 with closeCalls := 1 } 300000000000 with closes := 1 },
       handleOf (freshConn 1) 300000000000] }

/-- The fine-grained gate `main` builds from `cfgTwo`. -/
def fineGateTwo : FineGate :=
  { l := { sem := { cap := 2, len := 0 }, readTimeout := 300000000000,
           writeTimeout := 300000000000 }
    inflight := 0, handles := [] }

/-- Two accepts, then a `Close` of handle 0 that has released its slot and not
yet closed its stream. -/
def evsMidClose : List FineEvent :=
  [.acquire, .underOk (freshConn 0), .acquire, .underOk (freshConn 1), .closeRelease 0]

/-- State of `fineGateTwo` after `evsMidClose`. -/
def stateMidClose : FineGate :=
  { l := { sem := { cap := 2, len := 1 }, readTimeout := 300000000000,
           writeTimeout := 300000000000 }
    inflight := 0
    handles :=
      [{ conn := (handleOf (freshConn 0) 300000000000).conn, released := 1, closed := 0 },
       { conn := (handleOf (freshConn 1) 300000000000).conn, released := 0, closed := 0 }] }

/-- Environment in which parsing yields `cfg` and every later call succeeds. -/
def envOf (cfg : params) : Env :=
  { Parse := .ok cfg, ParseIP := fun _ => [], New := fun _ => none,
    Listen := fun _ _ => none, Serve := fun _ => none }

/-- A stream whose `Read` and `Write` report the length of the buffer. -/
def lenOps : StreamOps :=
  { Read := fun _ b => (b.length, none), Write := fun _ b => (b.length, none) }

/-- A parser that tells the two addresses of the source-filter scenario apart. -/
def parseTwo (s : String) : IP :=
  if s = "10.0.0.1" then [10, 0, 0, 1] else if s = "10.0.0.2" then [10, 0, 0, 2] else []

/-! ## Invariants of the admission gate -/

/-- What every reachable state of the gate satisfies: the channel is within its
capacity, the tokens are accounted for by the calls that took and returned
them, and every handle releases by receiving from the channel. -/
structure Gate.Inv (s : Gate) : Prop where
  bound : s.l.sem.len ≤ s.l.sem.cap
  count : s.l.sem.len + s.totalCloses = s.inflight + s.handles.length
  rel : ∀ h ∈ s.handles, h.conn.release = Chan.recv

/-- What every reachable state of the fine-grained gate satisfies. -/
structure FineGate.Inv (s : FineGate) : Prop where
  bound : s.l.sem.len ≤ s.l.sem.cap
  count : s.l.sem.len + (s.handles.map (fun h => h.released)).sum
            = s.inflight + s.handles.length
  rel : ∀ h ∈ s.handles, h.conn.release = Chan.recv
  order : ∀ h ∈ s.handles, h.closed ≤ h.released

theorem Chan.send_some {ch ch1 : Chan} (h : ch.send = some ch1) :
    ch1.len = ch.len + 1 ∧ ch1.cap = ch.cap ∧ ch.len < ch.cap := by
  unfold Chan.send at h
  split at h
  · cases h; simp_all
  · cases h

theorem Chan.recv_some {ch ch1 : Chan} (h : ch.recv = some ch1) :
    ch1.len + 1 = ch.len ∧ ch1.cap = ch.cap := by
  unfold Chan.recv at h
  split at h
  · cases h; constructor
    · show ch.len - 1 + 1 = ch.len
      omega
    · rfl
  · cases h

theorem sum_closes_set (hs : List Handle) (i : Nat) (h h1 : Handle)
    (hg : hs[i]? = some h) :
    ((hs.set i h1).map (fun x => x.closes)).sum + h.closes
      = (hs.map (fun x => x.closes)).sum + h1.closes := by
  induction hs generalizing i with
  | nil => simp at hg
  | cons a t ih =>
    cases i with
    | zero =>
      simp at hg
      subst hg
      simp only [List.set, List.map, List.sum_cons]
      omega
    | succ j =>
      simp at hg
      have := ih j hg
      simp only [List.set, List.map, List.sum_cons]
      omega

theorem step_close_some {s s1 : Gate} {i : Nat} {e : Option Error}
    (hs : step s (.close i e) = some s1) :
    ∃ h ch c1, s.handles[i]? = some h ∧ h.conn.release s.l.sem = some ch
      ∧ c1.release = h.conn.release
      ∧ s1 = { l := { s.l with sem := ch }, inflight := s.inflight,
               handles := s.handles.set i { conn := c1, closes := h.closes + 1 } } := by
  simp only [step] at hs
  cases hg : s.handles[i]? with
  | none => simp [hg] at hs
  | some h =>
    simp only [hg, limitConn.Close] at hs
    cases hrel : h.conn.release s.l.sem with
    | none => simp [hrel] at hs
    | some ch =>
      simp only [hrel] at hs
      exact ⟨h, ch, { h.conn with Conn := { h.conn.Conn with Conn := (h.conn.Conn.Conn.Close e).1 } },
        rfl, hrel, rfl, (Option.some.inj hs).symm⟩

theorem step_inv {s s1 : Gate} {e : Event} (hi : s.Inv) (hs : step s e = some s1) :
    s1.Inv ∧ s1.l.sem.cap = s.l.sem.cap := by
  obtain ⟨hb, hc, hr⟩ := hi
  cases e with
  | acquire =>
    simp only [step, limitListener.acquire] at hs
    cases hsend : s.l.sem.send with
    | none => simp [hsend] at hs
    | some ch =>
      simp [hsend] at hs
      subst hs
      obtain ⟨h1, h2, h3⟩ := Chan.send_some hsend
      refine ⟨⟨?_, ?_, ?_⟩, ?_⟩
      · show ch.len ≤ ch.cap
        omega
      · show ch.len + _ = _
        simp only [Gate.totalCloses] at hc ⊢
        omega
      · exact hr
      · exact h2
  | underOk c =>
    simp only [step, limitListener.finish] at hs
    split at hs
    · simp at hs
      subst hs
      refine ⟨⟨hb, ?_, ?_⟩, rfl⟩
      · simp only [Gate.totalCloses] at hc ⊢
        simp
        omega
      · intro h hm
        simp at hm
        rcases hm with hm | hm
        · exact hr h hm
        · subst hm; rfl
    · cases hs
  | underErr err =>
    simp only [step, limitListener.finish] at hs
    split at hs
    · cases hrecv : s.l.sem.recv with
      | none => simp [hrecv] at hs
      | some ch =>
        simp [hrecv] at hs
        subst hs
        obtain ⟨h1, h2⟩ := Chan.recv_some hrecv
        refine ⟨⟨?_, ?_, hr⟩, h2⟩
        · show ch.len ≤ ch.cap
          omega
        · show ch.len + _ = _
          simp only [Gate.totalCloses] at hc ⊢
          omega
    · cases hs
  | close i err =>
    obtain ⟨h, ch, c1, hg, hrecv, hc1, rfl⟩ := step_close_some hs
    have hmem : h ∈ s.handles := List.getElem?_mem hg
    have hrel := hr h hmem
    rw [hrel] at hrecv
    obtain ⟨h1, h2⟩ := Chan.recv_some hrecv
    have hsum := sum_closes_set s.handles i h { conn := c1, closes := h.closes + 1 } hg
    refine ⟨⟨?_, ?_, ?_⟩, h2⟩
    · show ch.len ≤ ch.cap
      omega
    · show ch.len + _ = _
      simp only [Gate.totalCloses] at hc hsum ⊢
      simp only [List.length_set]
      omega
    · intro x hx
      rcases List.mem_or_eq_of_mem_set hx with hx | hx
      · exact hr x hx
      · subst hx
        exact hc1.trans hrel

theorem run_inv {s s1 : Gate} {evs : List Event} (hi : s.Inv) (hs : run s evs = some s1) :
    s1.Inv ∧ s1.l.sem.cap = s.l.sem.cap := by
  induction evs generalizing s with
  | nil =>
    simp [run] at hs
    subst hs
    exact ⟨hi, rfl⟩
  | cons e es ih =>
    simp only [run] at hs
    cases hst : step s e with
    | none => simp [hst] at hs
    | some s2 =>
      simp only [hst] at hs
      obtain ⟨hi2, hc2⟩ := step_inv hi hst
      obtain ⟨hi3, hc3⟩ := ih hi2 hs
      exact ⟨hi3, hc3.trans hc2⟩

theorem step_timeouts {s s1 : Gate} {e : Event} (hs : step s e = some s1) :
    s1.l.readTimeout = s.l.readTimeout ∧ s1.l.writeTimeout = s.l.writeTimeout := by
  cases e with
  | acquire =>
    simp only [step, limitListener.acquire] at hs
    cases hsend : s.l.sem.send with
    | none => simp [hsend] at hs
    | some ch =>
      simp [hsend] at hs
      subst hs
      exact ⟨rfl, rfl⟩
  | underOk c =>
    simp only [step, limitListener.finish] at hs
    split at hs
    · simp at hs
      subst hs
      exact ⟨rfl, rfl⟩
    · cases hs
  | underErr err =>
    simp only [step, limitListener.finish] at hs
    split at hs
    · cases hrecv : s.l.sem.recv with
      | none => simp [hrecv] at hs
      | some ch =>
        simp [hrecv] at hs
        subst hs
        exact ⟨rfl, rfl⟩
    · cases hs
  | close i err =>
    obtain ⟨h, ch, c1, _, _, _, rfl⟩ := step_close_some hs
    exact ⟨rfl, rfl⟩

theorem run_timeouts {s s1 : Gate} {evs : List Event} (hs : run s evs = some s1) :
    s1.l.readTimeout = s.l.readTimeout ∧ s1.l.writeTimeout = s.l.writeTimeout := by
  induction evs generalizing s with
  | nil =>
    simp [run] at hs
    subst hs
    exact ⟨rfl, rfl⟩
  | cons e es ih =>
    simp only [run] at hs
    cases hst : step s e with
    | none => simp [hst] at hs
    | some s2 =>
      simp only [hst] at hs
      obtain ⟨h1, h2⟩ := step_timeouts hst
      obtain ⟨h3, h4⟩ := ih hs
      exact ⟨h3.trans h1, h4.trans h2⟩

theorem wrapInt64_of_range {x : Int} (h1 : -2 ^ 63 ≤ x) (h2 : x < 2 ^ 63) :
    wrapInt64 x = x := by
  unfold wrapInt64
  have : (x + 2 ^ 63) % 2 ^ 64 = x + 2 ^ 63 := by
    apply Int.emod_eq_of_lt <;> omega
  omega

theorem secondsDuration_of_fitsInt32 {n : Int} (h : fitsInt32 n) :
    secondsDuration n = n * Second := by
  obtain ⟨h1, h2⟩ := h
  apply wrapInt64_of_range <;> simp only [Second] <;> omega

theorem newGate_inv {cfg : params} {g : Gate} (h : newGate cfg = some g) :
    g.Inv ∧ (g.l.sem.cap : Int) = cfg.MaxConns ∧ g.l.sem.len = 0
      ∧ g.l.readTimeout = secondsDuration cfg.TimeoutSec
      ∧ g.l.writeTimeout = secondsDuration cfg.TimeoutSec := by
  by_cases hn : 0 ≤ cfg.MaxConns
  · simp only [newGate, newLimitListener, Chan.make, hn, if_true] at h
    cases h
    refine ⟨⟨?_, ?_, ?_⟩, ?_, rfl, rfl, rfl⟩
    · exact Nat.zero_le _
    · simp [Gate.totalCloses]
    · intro h hm; simp at hm
    · exact Int.toNat_of_nonneg hn
  · simp [newGate, newLimitListener, Chan.make, hn] at h

theorem limitConn.Close_eq_release_then_stream (h : limitConn) (sem : Chan)
    (e : Option Error) :
    h.Close sem e
      = match h.closeRelease sem with
        | none => none
        | some sem1 => some (sem1, (h.closeStream e).1, (h.closeStream e).2) := by
  simp only [limitConn.Close, limitConn.closeRelease, limitConn.closeStream]

theorem sum_map_set {α : Type} (f : α → Nat) (xs : List α) (i : Nat) (x y : α)
    (hg : xs[i]? = some x) :
    ((xs.set i y).map f).sum + f x = (xs.map f).sum + f y := by
  induction xs generalizing i with
  | nil => simp at hg
  | cons a t ih =>
    cases i with
    | zero =>
      simp at hg
      subst hg
      simp only [List.set, List.map, List.sum_cons]
      omega
    | succ j =>
      simp at hg
      have := ih j hg
      simp only [List.set, List.map, List.sum_cons]
      omega

theorem fineStep_inv {s s1 : FineGate} {e : FineEvent} (hi : s.Inv)
    (hs : fineStep s e = some s1) :
    s1.Inv ∧ s1.l.sem.cap = s.l.sem.cap := by
  obtain ⟨hb, hc, hr, ho⟩ := hi
  cases e with
  | acquire =>
    simp only [fineStep, limitListener.acquire] at hs
    cases hsend : s.l.sem.send with
    | none => simp [hsend] at hs
    | some ch =>
      simp [hsend] at hs
      subst hs
      obtain ⟨h1, h2, h3⟩ := Chan.send_some hsend
      refine ⟨⟨?_, ?_, hr, ho⟩, h2⟩
      · show ch.len ≤ ch.cap
        omega
      · show ch.len + _ = _
        dsimp only
        omega
  | underOk c =>
    simp only [fineStep, limitListener.finish] at hs
    split at hs
    · simp at hs
      subst hs
      refine ⟨⟨hb, ?_, ?_, ?_⟩, rfl⟩
      · simp
        omega
      · intro h hm
        simp at hm
        rcases hm with hm | hm
        · exact hr h hm
        · subst hm; rfl
      · intro h hm
        simp at hm
        rcases hm with hm | hm
        · exact ho h hm
        · subst hm; exact Nat.le_refl _
    · cases hs
  | underErr err =>
    simp only [fineStep, limitListener.finish] at hs
    split at hs
    · cases hrecv : s.l.sem.recv with
      | none => simp [hrecv] at hs
      | some ch =>
        simp [hrecv] at hs
        subst hs
        obtain ⟨h1, h2⟩ := Chan.recv_some hrecv
        refine ⟨⟨?_, ?_, hr, ho⟩, h2⟩
        · show ch.len ≤ ch.cap
          omega
        · show ch.len + _ = _
          dsimp only
          omega
    · cases hs
  | closeRelease i =>
    simp only [fineStep] at hs
    cases hg : s.handles[i]? with
    | none => simp [hg] at hs
    | some h =>
      simp only [hg, limitConn.closeRelease] at hs
      have hrel := hr h (List.getElem?_mem hg)
      rw [hrel] at hs
      cases hrecv : s.l.sem.recv with
      | none => simp [hrecv] at hs
      | some ch =>
        simp only [hrecv, Option.some.injEq] at hs
        subst hs
        obtain ⟨h1, h2⟩ := Chan.recv_some hrecv
        have hsum := sum_map_set (fun x : TrackedHandle => x.released) s.handles i h
          { h with released := h.released + 1 } hg
        refine ⟨⟨?_, ?_, ?_, ?_⟩, h2⟩
        · show ch.len ≤ ch.cap
          omega
        · show ch.len + _ = _
          simp only [List.length_set] at hsum ⊢
          omega
        · intro x hx
          rcases List.mem_or_eq_of_mem_set hx with hx | hx
          · exact hr x hx
          · subst hx; exact hrel
        · intro x hx
          rcases List.mem_or_eq_of_mem_set hx with hx | hx
          · exact ho x hx
          · subst hx
            have := ho h (List.getElem?_mem hg)
            show h.closed ≤ h.released + 1
            omega
  | closeStream i err =>
    simp only [fineStep] at hs
    cases hg : s.handles[i]? with
    | none => simp [hg] at hs
    | some h =>
      simp only [hg] at hs
      split at hs
      · rename_i hlt
        simp only [Option.some.injEq] at hs
        subst hs
        have hsum := sum_map_set (fun x : TrackedHandle => x.released) s.handles i h
          { h with conn := (h.conn.closeStream err).1, closed := h.closed + 1 } hg
        refine ⟨⟨hb, ?_, ?_, ?_⟩, rfl⟩
        · show s.l.sem.len + _ = _
          simp only [List.length_set] at hsum ⊢
          omega
        · intro x hx
          rcases List.mem_or_eq_of_mem_set hx with hx | hx
          · exact hr x hx
          · subst hx; exact hr h (List.getElem?_mem hg)
        · intro x hx
          rcases List.mem_or_eq_of_mem_set hx with hx | hx
          · exact ho x hx
          · subst hx
            show h.closed + 1 ≤ h.released
            omega
      · cases hs

theorem fineRun_inv {s s1 : FineGate} {evs : List FineEvent} (hi : s.Inv)
    (hs : fineRun s evs = some s1) :
    s1.Inv ∧ s1.l.sem.cap = s.l.sem.cap := by
  induction evs generalizing s with
  | nil =>
    simp [fineRun] at hs
    subst hs
    exact ⟨hi, rfl⟩
  | cons e es ih =>
    simp only [fineRun] at hs
    cases hst : fineStep s e with
    | none => simp [hst] at hs
    | some s2 =>
      simp only [hst] at hs
      obtain ⟨hi2, hc2⟩ := fineStep_inv hi hst
      obtain ⟨hi3, hc3⟩ := ih hi2 hs
      exact ⟨hi3, hc3.trans hc2⟩

theorem newFineGate_inv {cfg : params} {g : FineGate} (h : newFineGate cfg = some g) :
    g.Inv ∧ (g.l.sem.cap : Int) = cfg.MaxConns := by
  by_cases hn : 0 ≤ cfg.MaxConns
  · simp only [newFineGate, newLimitListener, Chan.make, hn, if_true] at h
    cases h
    refine ⟨⟨?_, ?_, ?_, ?_⟩, ?_⟩
    · exact Nat.zero_le _
    · simp
    · intro h hm; simp at hm
    · intro h hm; simp at hm
    · exact Int.toNat_of_nonneg hn
  · simp [newFineGate, newLimitListener, Chan.make, hn] at h

theorem unreleased_add_released (hs : List TrackedHandle)
    (h1 : ∀ h ∈ hs, h.released ≤ 1) :
    (hs.filter (fun h => h.released == 0)).length + (hs.map (fun h => h.released)).sum
      = hs.length := by
  induction hs with
  | nil => simp
  | cons a t ih =>
    have ha : a.released ≤ 1 := h1 a (by simp)
    have ht := ih (fun h hm => h1 h (by simp [hm]))
    by_cases h0 : a.released = 0
    · simp [List.filter, h0]
      omega
    · have : a.released = 1 := by omega
      simp [List.filter, this]
      omega

theorem open_eq_unreleased_add_midClose (hs : List TrackedHandle)
    (h1 : ∀ h ∈ hs, h.released ≤ 1) (h2 : ∀ h ∈ hs, h.closed ≤ h.released) :
    (hs.filter (fun h => h.closed == 0)).length
      = (hs.filter (fun h => h.released == 0)).length
          + (hs.map (fun h => h.released - h.closed)).sum := by
  induction hs with
  | nil => simp
  | cons a t ih =>
    have ha : a.released ≤ 1 := h1 a (by simp)
    have hb : a.closed ≤ a.released := h2 a (by simp)
    have ht := ih (fun h hm => h1 h (by simp [hm])) (fun h hm => h2 h (by simp [hm]))
    by_cases h0 : a.released = 0
    · have hc0 : a.closed = 0 := by omega
      simp [List.filter, h0, hc0]
      omega
    · have hr1 : a.released = 1 := by omega
      by_cases hc0 : a.closed = 0
      · simp [List.filter, hr1, hc0]
        omega
      · have hc1 : a.closed = 1 := by omega
        simp [List.filter, hr1, hc1]
        omega

/-! ## Admission gate -/

/-- C1: for every capacity MaxConns ≥ 1, in every state the gate built by `main`
reaches through a finite interleaving of Accept steps (succeeding or failing)
and Close steps, the number of tokens in the semaphore is at most MaxConns. -/
theorem C1_held_le_MaxConns (cfg : params) (g0 s : Gate) (evs : List Event)
    (_hcap : 1 ≤ cfg.MaxConns) (hinit : newGate cfg = some g0)
    (hrun : run g0 evs = some s) :
    (s.held : Int) ≤ cfg.MaxConns := by
  obtain ⟨hi0, hc0, _⟩ := newGate_inv hinit
  obtain ⟨hi, hc⟩ := run_inv hi0 hrun
  have hb := hi.bound
  rw [hc] at hb
  rw [← hc0]
  exact_mod_cast hb

/-- C1 at `cfgTwo`: after two successful accepts two slots are held, within the
capacity of two. -/
theorem C1_held_le_MaxConns_witness :
    (1 : Int) ≤ cfgTwo.MaxConns ∧ newGate cfgTwo = some gateTwo
      ∧ run gateTwo evsTwoAccepts = some stateTwoAccepted
      ∧ (stateTwoAccepted.held : Int) ≤ cfgTwo.MaxConns :=
  ⟨by decide, rfl, rfl,
    C1_held_le_MaxConns cfgTwo gateTwo stateTwoAccepted evsTwoAccepts (by decide) rfl rfl⟩

/-- C2, as stated, fails: with two connections accepted on a gate of capacity
two, the first Close of handle 0 leaves one slot held and a second Close of the
same handle (whose wrapped close errors) leaves none: the later Close released a
second slot. -/
theorem C2_second_close_releases_again :
    ((newGate cfgTwo).bind (fun g => run g evsTwoAccepts)).map Gate.held = some 2
      ∧ ((newGate cfgTwo).bind
          (fun g => run g (evsTwoAccepts ++ [.close 0 none]))).map Gate.held = some 1
      ∧ ((newGate cfgTwo).bind
          (fun g => run g (evsTwoAccepts ++
            [.close 0 none, .close 0 (some "use of closed network connection")]))).map
          Gate.held = some 0 := by
  decide

/-- C2, amended: on a reachable gate, every Close that completes on a handle
releases one slot, so `n` completed Close calls on the same handle lower the
held-slot count by `n`, whatever errors the wrapped close returns; Close
returns that error unchanged; and a Close called while no slot is held does not
complete. -/
theorem C2_each_close_releases_one (cfg : params) (g0 s : Gate) (evs : List Event)
    (hinit : newGate cfg = some g0) (hrun : run g0 evs = some s) (i : Nat) :
    (∀ (errs : List (Option Error)) (s1 : Gate),
        run s (errs.map (Event.close i)) = some s1 → s1.held + errs.length = s.held)
      ∧ (∀ (h : Handle) (e : Option Error), s.handles[i]? = some h →
          (0 < s.held → ∃ sem1 h1, h.conn.Close s.l.sem e = some (sem1, h1, e)
            ∧ sem1.len + 1 = s.held)
          ∧ (s.held = 0 → h.conn.Close s.l.sem e = none ∧ step s (.close i e) = none)) := by
  have hi : s.Inv := (run_inv (newGate_inv hinit).1 hrun).1
  constructor
  · intro errs
    clear hrun
    induction errs generalizing s with
    | nil =>
      intro s1 h1
      simp [run] at h1
      subst h1
      rfl
    | cons e es ih =>
      intro s1 h1
      simp only [List.map, run] at h1
      cases hst : step s (.close i e) with
      | none => simp [hst] at h1
      | some s2 =>
        simp only [hst] at h1
        have h3 := ih s2 (step_inv hi hst).1 s1 h1
        obtain ⟨h, ch, c1, hg, hrecv, _, rfl⟩ := step_close_some hst
        rw [hi.rel h (List.getElem?_mem hg)] at hrecv
        obtain ⟨h4, _⟩ := Chan.recv_some hrecv
        simp only [Gate.held, List.length_cons] at h3 h4 ⊢
        omega
  · intro h e hg
    have hrel := hi.rel h (List.getElem?_mem hg)
    constructor
    · intro hpos
      have hrecv : s.l.sem.recv = some { s.l.sem with len := s.l.sem.len - 1 } := by
        simp only [Gate.held] at hpos
        simp [Chan.recv, hpos]
      refine ⟨{ s.l.sem with len := s.l.sem.len - 1 },
        { h.conn with Conn := { h.conn.Conn with Conn := (h.conn.Conn.Conn.Close e).1 } },
        ?_, ?_⟩
      · simp only [limitConn.Close, hrel, hrecv, NetConn.Close]
      · simp only [Gate.held] at hpos ⊢
        show s.l.sem.len - 1 + 1 = s.l.sem.len
        omega
    · intro hz
      have hrecv : s.l.sem.recv = none := by
        simp only [Gate.held] at hz
        simp [Chan.recv, hz]
      have hcl : h.conn.Close s.l.sem e = none := by
        simp only [limitConn.Close, hrel, hrecv]
      exact ⟨hcl, by simp only [step, hg, hcl]⟩

/-- C2 amended, at `cfgTwo`: two completed Close calls on handle 0 after two
accepts lower the held-slot count by two. -/
theorem C2_each_close_releases_one_witness :
    newGate cfgTwo = some gateTwo ∧ run gateTwo evsTwoAccepts = some stateTwoAccepted
      ∧ run stateTwoAccepted ([none, some "closed"].map (Event.close 0))
          = some { stateOneClosed with
              l := { stateOneClosed.l with sem := { cap := 2, len := 0 } }
              handles :=
                [{ handleOf { freshConn 0 with closeCalls := 2 } 300000000000 with closes := 2 },
                 handleOf (freshConn 1) 300000000000] }
      ∧ 0 + [none, some "closed"].length = stateTwoAccepted.held :=
  ⟨rfl, rfl, rfl,
    (C2_each_close_releases_one cfgTwo gateTwo stateTwoAccepted evsTwoAccepts rfl rfl 0).1
      [none, some "closed"] _ rfl⟩

/-- C3, as stated, fails with MaxConns = 1, in two ways.  With a repeated Close:
accept, close the handle, accept again, close the first handle once more (this
takes the second connection's slot), accept a third time: two handles are open.
With every handle closed at most once: accept, let the Close of the handle
release its slot (line 70) and, before it closes the stream (line 71), accept
again: two handles are open, one slot is held and no Accept is in flight. -/
theorem C3_open_handles_exceed_MaxConns :
    cfgOne.MaxConns = 1
      ∧ ((newFineGate cfgOne).bind (fun g => fineRun g
          [.acquire, .underOk (freshConn 0), .closeRelease 0, .closeStream 0 none,
           .acquire, .underOk (freshConn 1), .closeRelease 0, .closeStream 0 none,
           .acquire, .underOk (freshConn 2)])).map
          (fun s => (s.numOpen, s.held, s.inflight)) = some (2, 1, 0)
      ∧ ((newFineGate cfgOne).bind (fun g => fineRun g
          [.acquire, .underOk (freshConn 0), .closeRelease 0,
           .acquire, .underOk (freshConn 1)])).map
          (fun s => (s.numOpen, s.held, s.inflight, s.handles.map (fun h => h.released)))
          = some (2, 1, 0, [1, 0]) := by
  decide

/-- C3, amended: for every capacity MaxConns ≥ 1 and every state the gate
reaches through a finite interleaving of Accept steps and of the two steps of
Close (release of the slot, then close of the stream) in which no handle has
released a slot more than once, the number of handles that have not released
their slot is at most MaxConns (it is the number of held slots minus the Accept
calls in flight), and the number of open handles is that number plus the number
of Close calls that have released their slot and not yet closed their stream. -/
theorem C3_unreleased_le_MaxConns (cfg : params) (g0 s : FineGate)
    (evs : List FineEvent) (_hcap : 1 ≤ cfg.MaxConns) (hinit : newFineGate cfg = some g0)
    (hrun : fineRun g0 evs = some s) (honce : ∀ h ∈ s.handles, h.released ≤ 1) :
    (s.numUnreleased : Int) ≤ cfg.MaxConns
      ∧ s.numUnreleased + s.inflight = s.held
      ∧ s.numOpen = s.numUnreleased + s.numMidClose
      ∧ (s.numOpen : Int) ≤ cfg.MaxConns + s.numMidClose := by
  obtain ⟨hi0, hc0⟩ := newFineGate_inv hinit
  obtain ⟨hi, hc⟩ := fineRun_inv hi0 hrun
  have hb := hi.bound
  have hcount := hi.count
  have hsum := unreleased_add_released s.handles honce
  have hopen := open_eq_unreleased_add_midClose s.handles honce hi.order
  have heq : s.numUnreleased + s.inflight = s.held := by
    simp only [FineGate.numUnreleased, FineGate.held]
    omega
  have hle : s.numUnreleased ≤ g0.l.sem.cap := by
    simp only [FineGate.held] at heq
    omega
  have hle2 : (s.numUnreleased : Int) ≤ cfg.MaxConns := by
    rw [← hc0]
    exact_mod_cast hle
  have hop : s.numOpen = s.numUnreleased + s.numMidClose := hopen
  refine ⟨hle2, heq, hop, ?_⟩
  rw [hop]
  push_cast
  omega

/-- C3 amended, at `cfgTwo`: after two accepts and the release step of a Close
of handle 0, one handle has not released its slot, one Close is between its two
statements, and two handles are open. -/
theorem C3_unreleased_le_MaxConns_witness :
    (1 : Int) ≤ cfgTwo.MaxConns ∧ newFineGate cfgTwo = some fineGateTwo
      ∧ fineRun fineGateTwo evsMidClose = some stateMidClose
      ∧ (∀ h ∈ stateMidClose.handles, h.released ≤ 1)
      ∧ stateMidClose.numUnreleased = 1 ∧ stateMidClose.numMidClose = 1
      ∧ stateMidClose.numOpen = 2
      ∧ (stateMidClose.numUnreleased : Int) ≤ cfgTwo.MaxConns
      ∧ stateMidClose.numOpen = stateMidClose.numUnreleased + stateMidClose.numMidClose :=
  have honce : ∀ h ∈ stateMidClose.handles, h.released ≤ 1 := by
    intro h hm
    simp only [stateMidClose, List.mem_cons, List.mem_singleton,
      List.not_mem_nil, or_false] at hm
    rcases hm with rfl | rfl <;> decide
  have h := C3_unreleased_le_MaxConns cfgTwo fineGateTwo stateMidClose evsMidClose
    (by decide) rfl rfl honce
  ⟨by decide, rfl, rfl, honce, by decide, by decide, by decide, h.1, h.2.2.1⟩

/-- C4: when `Accept` acquires its slot and the wrapped listener's `Accept` fails
with error `e`, `limitListener.Accept` returns no handle and exactly `e`, and
the number of held slots after the call is the number held before it. -/
theorem C4_accept_error_releases_slot (l : limitListener) (e : Error)
    (hacq : l.acquire ≠ none) :
    ∃ l1, l.Accept (.error e) = some (l1, .error e) ∧ l1.sem.len = l.sem.len := by
  have hlt : l.sem.len < l.sem.cap := by
    by_contra hge
    apply hacq
    simp [limitListener.acquire, Chan.send, hge]
  refine ⟨l, ?_, rfl⟩
  simp [limitListener.Accept, limitListener.acquire, limitListener.finish, Chan.send,
    Chan.recv, hlt]

/-- C4 at the listener of `stateOneClosed` (one slot of two held): a failing
`Accept` returns the error and leaves one slot held. -/
theorem C4_accept_error_releases_slot_witness :
    stateOneClosed.l.acquire ≠ none
      ∧ ∃ l1, stateOneClosed.l.Accept (.error "accept tcp: too many open files")
            = some (l1, .error "accept tcp: too many open files")
          ∧ l1.sem.len = stateOneClosed.l.sem.len :=
  ⟨by decide, C4_accept_error_releases_slot stateOneClosed.l _ (by decide)⟩

/-- C5: in every reachable state of the gate, the step by which an `Accept`
call acquires its slot is enabled exactly when fewer than MaxConns slots are
held; with exactly MaxConns held it is not enabled, and after a Close step from
such a state it is enabled again. -/
theorem C5_acquire_enabled_iff_below_capacity (cfg : params) (g0 s : Gate)
    (evs : List Event) (_hcap : 1 ≤ cfg.MaxConns) (hinit : newGate cfg = some g0)
    (hrun : run g0 evs = some s) :
    ((step s .acquire ≠ none) ↔ (s.held : Int) < cfg.MaxConns)
      ∧ ((s.held : Int) = cfg.MaxConns →
          step s .acquire = none ∧ ∀ under, s.l.Accept under = none)
      ∧ (∀ (i : Nat) (e : Option Error) (s1 : Gate), (s.held : Int) = cfg.MaxConns →
          step s (.close i e) = some s1 → step s1 .acquire ≠ none) := by
  obtain ⟨hi0, hc0, _⟩ := newGate_inv hinit
  obtain ⟨hi, hc⟩ := run_inv hi0 hrun
  have hcap : (s.l.sem.cap : Int) = cfg.MaxConns := by rw [hc]; exact hc0
  have key : ∀ t : Gate, (step t .acquire ≠ none) ↔ t.l.sem.len < t.l.sem.cap := by
    intro t
    by_cases hlt : t.l.sem.len < t.l.sem.cap
    · simp [step, limitListener.acquire, Chan.send, hlt]
    · simp [step, limitListener.acquire, Chan.send, hlt]
  refine ⟨?_, ?_, ?_⟩
  · rw [key, ← hcap]
    simp only [Gate.held]
    exact Nat.cast_lt.symm
  · intro hfull
    have hnot : ¬ (s.l.sem.len < s.l.sem.cap) := by
      simp only [Gate.held] at hfull
      rw [← hcap] at hfull
      have : s.l.sem.len = s.l.sem.cap := by exact_mod_cast hfull
      omega
    have := (key s).not.mpr hnot
    refine ⟨by simpa using this, fun under => ?_⟩
    simp [limitListener.Accept, limitListener.acquire, Chan.send, hnot]
  · intro i e s1 hfull hst
    obtain ⟨_, hc1⟩ := step_inv hi hst
    obtain ⟨h, ch, c1, hg, hrecv, _, rfl⟩ := step_close_some hst
    rw [hi.rel h (List.getElem?_mem hg)] at hrecv
    obtain ⟨h4, h5⟩ := Chan.recv_some hrecv
    rw [key]
    show ch.len < ch.cap
    simp only [Gate.held] at hfull
    rw [← hcap] at hfull
    have : s.l.sem.len = s.l.sem.cap := by exact_mod_cast hfull
    omega

/-- C5 at MaxConns = 2: two accepts succeed; then the third `Accept` cannot
acquire a slot, and the only steps enabled are Close steps; once handle 0 is
closed the third `Accept` can acquire its slot and complete. -/
theorem C5_acquire_enabled_iff_below_capacity_witness :
    (1 : Int) ≤ cfgTwo.MaxConns ∧ newGate cfgTwo = some gateTwo
      ∧ run gateTwo evsTwoAccepts = some stateTwoAccepted
      ∧ (stateTwoAccepted.held : Int) = cfgTwo.MaxConns
      ∧ step stateTwoAccepted .acquire = none
      ∧ stateTwoAccepted.l.Accept (.ok (freshConn 2)) = none
      ∧ (∀ e, step stateTwoAccepted e ≠ none → ∃ i err, e = .close i err)
      ∧ step stateTwoAccepted (.close 0 none) = some stateOneClosed
      ∧ step stateOneClosed .acquire ≠ none
      ∧ (stateOneClosed.l.Accept (.ok (freshConn 2))).isSome = true :=
  have h := C5_acquire_enabled_iff_below_capacity cfgTwo gateTwo stateTwoAccepted
    evsTwoAccepts (by decide) rfl rfl
  have honly : ∀ e, step stateTwoAccepted e ≠ none → ∃ i err, e = Event.close i err := by
    intro e he
    cases e with
    | acquire => exact absurd rfl he
    | underOk c => exact absurd rfl he
    | underErr err => exact absurd rfl he
    | close i err => exact ⟨i, err, rfl⟩
  ⟨by decide, rfl, rfl, by decide, (h.2.1 (by decide)).1, (h.2.1 (by decide)).2 _, honly,
    rfl, h.2.2 0 none stateOneClosed (by decide) rfl, rfl⟩

/-! ## Timeout wrapper -/

/-- C6: for every configuration `env.Parse` can produce (it reads TimeoutSec
with 32 bits, so TimeoutSec seconds never overflow `time.Duration`), on every
handle returned by a successful `Accept` of a reachable gate, whatever state
`cur` its wrapped stream is in, a Read at time `now` first sets the read deadline
to exactly `now` + TimeoutSec s, leaves the write deadline alone and returns
what the wrapped Read returns on the stream so prepared; a Write does the same
with the write deadline and leaves the read deadline alone. -/
theorem C6_deadline_is_now_plus_timeout (cfg : params) (g0 s : Gate) (evs : List Event)
    (c : NetConn) (l1 : limitListener) (h : limitConn)
    (hparse : fitsInt32 cfg.TimeoutSec)
    (hinit : newGate cfg = some g0) (hrun : run g0 evs = some s)
    (hacc : s.l.Accept (.ok c) = some (l1, .ok h))
    (ops : StreamOps) (cur : NetConn) (now : Int) (b : List Nat) :
    ((h.withStream cur).Read ops now b).1.Conn.Conn
        = cur.SetReadDeadline (now + cfg.TimeoutSec * Second)
      ∧ ((h.withStream cur).Read ops now b).1.Conn.Conn.readDeadline
        = some (now + cfg.TimeoutSec * Second)
      ∧ ((h.withStream cur).Read ops now b).1.Conn.Conn.writeDeadline = cur.writeDeadline
      ∧ ((h.withStream cur).Read ops now b).2
        = ops.Read (cur.SetReadDeadline (now + cfg.TimeoutSec * Second)) b
      ∧ ((h.withStream cur).Write ops now b).1.Conn.Conn
        = cur.SetWriteDeadline (now + cfg.TimeoutSec * Second)
      ∧ ((h.withStream cur).Write ops now b).1.Conn.Conn.writeDeadline
        = some (now + cfg.TimeoutSec * Second)
      ∧ ((h.withStream cur).Write ops now b).1.Conn.Conn.readDeadline = cur.readDeadline
      ∧ ((h.withStream cur).Write ops now b).2
        = ops.Write (cur.SetWriteDeadline (now + cfg.TimeoutSec * Second)) b := by
  obtain ⟨_, _, _, hr0, hw0⟩ := newGate_inv hinit
  obtain ⟨hr1, hw1⟩ := run_timeouts hrun
  have hd : secondsDuration cfg.TimeoutSec = cfg.TimeoutSec * Second :=
    secondsDuration_of_fitsInt32 hparse
  have hr : s.l.readTimeout = cfg.TimeoutSec * Second := by rw [hr1, hr0, hd]
  have hw : s.l.writeTimeout = cfg.TimeoutSec * Second := by rw [hw1, hw0, hd]
  simp only [limitListener.Accept, limitListener.acquire] at hacc
  cases hsend : s.l.sem.send with
  | none => simp [hsend] at hacc
  | some ch =>
    simp only [hsend, limitListener.finish, Option.some.injEq, Prod.mk.injEq,
      Except.ok.injEq] at hacc
    obtain ⟨_, rfl⟩ := hacc
    simp only [limitConn.withStream, limitConn.Read, limitConn.Write, timeoutConn.Read,
      timeoutConn.Write, NetConn.SetReadDeadline, NetConn.SetWriteDeadline, hr, hw,
      and_self]

/-- C6 at `cfgTwo` (300 s): on the handle of the second accepted connection, a
Read at time 1000 sets the read deadline to 1000 + 300 s and returns the
wrapped Read's result; a Write at time 2000 sets the write deadline to
2000 + 300 s. -/
theorem C6_deadline_is_now_plus_timeout_witness :
    fitsInt32 cfgTwo.TimeoutSec
      ∧ newGate cfgTwo = some gateTwo
      ∧ run gateTwo [.acquire, .underOk (freshConn 0)]
          = some { gateTwo with
              l := { gateTwo.l with sem := { cap := 2, len := 1 } }
              handles := [handleOf (freshConn 0) 300000000000] }
      ∧ (((handleOf (freshConn 1) 300000000000).conn.withStream (freshConn 1)).Read
            lenOps 1000 [7, 7]).1.Conn.Conn.readDeadline = some (1000 + cfgTwo.TimeoutSec * Second)
      ∧ (((handleOf (freshConn 1) 300000000000).conn.withStream (freshConn 1)).Read
            lenOps 1000 [7, 7]).2 = (2, none)
      ∧ (((handleOf (freshConn 1) 300000000000).conn.withStream (freshConn 1)).Write
            lenOps 2000 [7, 7]).1.Conn.Conn.writeDeadline
          = some (2000 + cfgTwo.TimeoutSec * Second)
      ∧ secondsDuration (2 ^ 31 - 1) = (2 ^ 31 - 1) * Second
      ∧ secondsDuration (-2 ^ 31) = -2 ^ 31 * Second :=
  have hfit : fitsInt32 cfgTwo.TimeoutSec := ⟨by decide, by decide⟩
  have h := C6_deadline_is_now_plus_timeout cfgTwo gateTwo
    { gateTwo with
        l := { gateTwo.l with sem := { cap := 2, len := 1 } }
        handles := [handleOf (freshConn 0) 300000000000] }
    [.acquire, .underOk (freshConn 0)] (freshConn 1)
    { gateTwo.l with sem := { cap := 2, len := 2 } }
    (handleOf (freshConn 1) 300000000000).conn
    hfit rfl rfl rfl lenOps (freshConn 1) 1000 [7, 7]
  have hw := C6_deadline_is_now_plus_timeout cfgTwo gateTwo
    { gateTwo with
        l := { gateTwo.l with sem := { cap := 2, len := 1 } }
        handles := [handleOf (freshConn 0) 300000000000] }
    [.acquire, .underOk (freshConn 0)] (freshConn 1)
    { gateTwo.l with sem := { cap := 2, len := 2 } }
    (handleOf (freshConn 1) 300000000000).conn
    hfit rfl rfl rfl lenOps (freshConn 1) 2000 [7, 7]
  ⟨hfit, rfl, rfl, h.2.1, h.2.2.2.1, hw.2.2.2.2.2.1, by decide, by decide⟩

/-! ## Startup -/

theorem selectAuth_error_iff (cfg : params) :
    (∃ msg, selectAuth cfg = .error msg)
      ↔ (cfg.RequireAuth = true ∧ (cfg.User = "" ∨ cfg.Password = "")) := by
  unfold selectAuth
  by_cases hr : cfg.RequireAuth = true
  · by_cases hu : cfg.User = "" ∨ cfg.Password = ""
    · have hb : (cfg.User == "" || cfg.Password == "") = true := by
        simpa using hu
      simp [hr, hb, hu]
    · have hb : (cfg.User == "" || cfg.Password == "") = false := by
        simpa using hu
      simp [hr, hb, hu]
  · simp [hr]

theorem main_of_selectAuth_error (w : Env) (cfg : params) (msg : String)
    (hp : w.Parse = .ok cfg) (hs : selectAuth cfg = .error msg) :
    main w = [.fatal msg] := by
  simp only [main, hp, hs]

theorem main_of_selectAuth_ok (w : Env) (cfg : params) (logged : List Effect)
    (auths : List Authenticator)
    (hp : w.Parse = .ok cfg) (hs : selectAuth cfg = .ok (logged, auths)) :
    ∃ rest, main w
      = logged ++ Effect.socksNew { AuthMethods := auths, Rules := destRules cfg } :: rest := by
  simp only [main, hp, hs]
  cases w.New { AuthMethods := auths, Rules := destRules cfg } with
  | some err => exact ⟨_, by simp only [List.append_assoc, List.singleton_append, List.cons_append]; rfl⟩
  | none =>
    simp only []
    cases w.Listen "tcp" (listenAddr cfg) with
    | some err => exact ⟨_, by simp only [List.append_assoc, List.singleton_append, List.cons_append]; rfl⟩
    | none =>
      simp only []
      cases newLimitListener cfg with
      | none => exact ⟨_, by simp only [List.append_assoc, List.singleton_append, List.cons_append]; rfl⟩
      | some l =>
        simp only []
        cases w.Serve l with
        | some err => exact ⟨_, by simp only [List.append_assoc, List.singleton_append, List.cons_append]; rfl⟩
        | none => exact ⟨_, by simp only [List.append_assoc, List.singleton_append, List.cons_append]; rfl⟩

/-- C7: authenticator selection in `main` leaves no authentication method
installed when require-auth is false, is fatal when require-auth is true and
the user or the password is empty, and otherwise installs one user/password
authenticator holding exactly the pair (user, password); it is fatal if and
only if require-auth is true and one of user, password is empty.  In `main`
the fatal outcome is the whole trace, and otherwise the selected methods are
those passed to `socks5.New`. -/
theorem C7_authenticator_selection (cfg : params) :
    (cfg.RequireAuth = false →
        selectAuth cfg
          = .ok ([.print "Warning: proxy без авторизации! Это небезопасно."], []))
      ∧ (cfg.RequireAuth = true → (cfg.User = "" ∨ cfg.Password = "") →
          ∃ msg, selectAuth cfg = .error msg)
      ∧ (cfg.RequireAuth = true → cfg.User ≠ "" → cfg.Password ≠ "" →
          selectAuth cfg
            = .ok ([], [.UserPassAuthenticator [(cfg.User, cfg.Password)]]))
      ∧ ((∃ msg, selectAuth cfg = .error msg)
          ↔ (cfg.RequireAuth = true ∧ (cfg.User = "" ∨ cfg.Password = "")))
      ∧ (∀ w : Env, w.Parse = .ok cfg →
          ((∃ msg, main w = [.fatal msg])
            ↔ (cfg.RequireAuth = true ∧ (cfg.User = "" ∨ cfg.Password = "")))
          ∧ (∀ logged auths, selectAuth cfg = .ok (logged, auths) →
              ∃ rest, main w
                = logged ++ Effect.socksNew { AuthMethods := auths, Rules := destRules cfg }
                    :: rest)) := by
  refine ⟨?_, ?_, ?_, selectAuth_error_iff cfg, ?_⟩
  · intro hr
    simp [selectAuth, hr]
  · intro hr hu
    exact (selectAuth_error_iff cfg).2 ⟨hr, hu⟩
  · intro hr hu hp
    simp [selectAuth, hr, hu, hp]
  · intro w hw
    refine ⟨⟨?_, ?_⟩, fun logged auths hs => main_of_selectAuth_ok w cfg logged auths hw hs⟩
    · rintro ⟨msg, hm⟩
      rw [← selectAuth_error_iff]
      cases hs : selectAuth cfg with
      | error m => exact ⟨m, rfl⟩
      | ok r =>
        obtain ⟨logged, auths⟩ := r
        obtain ⟨rest, hrest⟩ := main_of_selectAuth_ok w cfg logged auths hw hs
        rw [hrest] at hm
        cases logged with
        | nil => simp at hm
        | cons a t =>
          have hlen := congrArg List.length hm
          simp at hlen
    · intro h
      obtain ⟨msg, hm⟩ := (selectAuth_error_iff cfg).2 h
      exact ⟨msg, main_of_selectAuth_error w cfg msg hw hm⟩

/-- C7 at three configurations: `cfgTwo` (no authentication) installs no
method, `cfgEmptyPassword` is fatal, `cfgAuth` installs the pair
("alice", "secret"). -/
theorem C7_authenticator_selection_witness :
    (∃ msg, selectAuth cfgEmptyPassword = .error msg)
      ∧ selectAuth cfgAuth = .ok ([], [.UserPassAuthenticator [("alice", "secret")]])
      ∧ selectAuth cfgTwo
          = .ok ([.print "Warning: proxy без авторизации! Это небезопасно."], [])
      ∧ (∃ msg, main (envOf cfgEmptyPassword) = [.fatal msg]) :=
  ⟨(C7_authenticator_selection cfgEmptyPassword).2.1 rfl (Or.inr rfl),
   (C7_authenticator_selection cfgAuth).2.2.1 rfl (by decide) (by decide),
   (C7_authenticator_selection cfgTwo).1 rfl,
   ((C7_authenticator_selection cfgEmptyPassword).2.2.2.2 (envOf cfgEmptyPassword) rfl).1.2
     ⟨rfl, Or.inr rfl⟩⟩

/-- C8: for every configuration with require-auth true and an empty password,
`main` ends in the fatal exit of the credential check; its trace of effects is
that single fatal exit, so it contains no `net.Listen` and no `Serve`. -/
theorem C8_no_bind_with_empty_password (w : Env) (cfg : params)
    (hparse : w.Parse = .ok cfg) (hreq : cfg.RequireAuth = true) (hpw : cfg.Password = "") :
    main w = [.fatal "REQUIRE_AUTH=true, но PROXY_USER/PROXY_PASSWORD не заданы"]
      ∧ (∀ e ∈ main w, e.isListen = false ∧ e.isServe = false)
      ∧ (main w).getLast?.map Effect.isFatal = some true := by
  have hs : selectAuth cfg
      = .error "REQUIRE_AUTH=true, но PROXY_USER/PROXY_PASSWORD не заданы" := by
    simp [selectAuth, hreq, hpw]
  have hm := main_of_selectAuth_error w cfg _ hparse hs
  rw [hm]
  refine ⟨rfl, ?_, rfl⟩
  intro e he
  simp only [List.mem_singleton] at he
  subst he
  exact ⟨rfl, rfl⟩

/-- C8 at `cfgEmptyPassword`, in an environment where binding and serving would
succeed. -/
theorem C8_no_bind_with_empty_password_witness :
    (envOf cfgEmptyPassword).Parse = .ok cfgEmptyPassword
      ∧ cfgEmptyPassword.RequireAuth = true ∧ cfgEmptyPassword.Password = ""
      ∧ main (envOf cfgEmptyPassword)
          = [.fatal "REQUIRE_AUTH=true, но PROXY_USER/PROXY_PASSWORD не заданы"]
      ∧ (main (envOf cfgAuth)).any Effect.isListen = true :=
  ⟨rfl, rfl, rfl,
    (C8_no_bind_with_empty_password (envOf cfgEmptyPassword) cfgEmptyPassword rfl rfl rfl).1,
    by decide⟩

/-! ## Access rules -/

theorem starMatch_iff (k : List Char → Bool) (s : List Char) :
    starMatch k s = true ↔ ∃ t u, s = t ++ u ∧ k u = true := by
  induction s with
  | nil =>
    simp only [starMatch]
    constructor
    · intro h
      exact ⟨[], [], rfl, h⟩
    · rintro ⟨t, u, htu, hk⟩
      have hu : u = [] := (List.append_eq_nil.mp htu.symm).2
      rw [hu] at hk
      exact hk
  | cons c s ih =>
    simp only [starMatch, Bool.or_eq_true]
    constructor
    · rintro (h | h)
      · exact ⟨[], c :: s, rfl, h⟩
      · obtain ⟨t, u, htu, hk⟩ := ih.mp h
        exact ⟨c :: t, u, by rw [htu]; rfl, hk⟩
    · rintro ⟨t, u, htu, hk⟩
      cases t with
      | nil =>
        left
        have : u = c :: s := by simpa using htu.symm
        rw [this] at hk
        exact hk
      | cons d t =>
        right
        have h2 : s = t ++ u := by
          have := List.cons.inj htu
          exact this.2
        exact ih.mpr ⟨t, u, h2, hk⟩

theorem globMatch_iff (p s : List Char) : globMatch p s = true ↔ GlobMatches p s := by
  induction p generalizing s with
  | nil =>
    simp only [globMatch]
    constructor
    · intro h
      have : s = [] := by simpa using h
      rw [this]
      exact GlobMatches.nil
    · intro h
      cases h
      rfl
  | cons c ps ih =>
    by_cases hc : c = '*'
    · subst hc
      simp only [globMatch, if_true]
      rw [starMatch_iff]
      constructor
      · rintro ⟨t, u, htu, hk⟩
        rw [htu]
        exact GlobMatches.star ps t u ((ih u).mp hk)
      · intro h
        generalize hp : '*' :: ps = p0 at h
        cases h with
        | nil => cases hp
        | star ps1 t u hm =>
          have : ps = ps1 := (List.cons.inj hp).2
          subst this
          exact ⟨t, u, rfl, (ih u).mpr hm⟩
        | char q ps1 u hq hm =>
          have : '*' = q := (List.cons.inj hp).1
          exact absurd this.symm hq
    · cases s with
      | nil =>
        simp only [globMatch, hc, if_false]
        constructor
        · intro h
          cases h
        · intro h
          generalize hp : c :: ps = p0 at h
          generalize hs : ([] : List Char) = s0 at h
          cases h with
          | nil => cases hp
          | star ps1 t u hm => exact absurd (List.cons.inj hp).1 hc
          | char q ps1 u hq hm => cases hs
      | cons d cs =>
        simp only [globMatch, hc, if_false, Bool.and_eq_true, beq_iff_eq]
        constructor
        · rintro ⟨hcd, hm⟩
          subst hcd
          exact GlobMatches.char c ps cs hc ((ih cs).mp hm)
        · intro h
          generalize hp : c :: ps = p0 at h
          generalize hs : d :: cs = s0 at h
          cases h with
          | nil => cases hp
          | star ps1 t u hm => exact absurd (List.cons.inj hp).1 hc
          | char q ps1 u hq hm =>
            obtain ⟨h1, h2⟩ := List.cons.inj hp
            obtain ⟨h3, h4⟩ := List.cons.inj hs
            subst h1 h2 h4
            exact ⟨h3.symm, (ih cs).mpr hm⟩

/-- C9: for every allowed-source-ips list and every client address, the source
check with the whitelist `main` installs permits the address when the list is
empty and otherwise exactly when the address is among the parsed entries of the
list; in the engine's handling of a connection the check comes first and a
rejected source is never negotiated with. -/
theorem C9_source_check (ParseIP : String → IP) (cfg : params) (sourceIP : IP) :
    (cfg.AllowedIPs = [] → IsSourcePermitted (ipWhitelist ParseIP cfg) sourceIP = true)
      ∧ (cfg.AllowedIPs ≠ [] →
          (IsSourcePermitted (ipWhitelist ParseIP cfg) sourceIP = true
            ↔ sourceIP ∈ cfg.AllowedIPs.map ParseIP))
      ∧ (∃ rest, serveConn (ipWhitelist ParseIP cfg) sourceIP
          = .sourceCheck (IsSourcePermitted (ipWhitelist ParseIP cfg) sourceIP) :: rest)
      ∧ (IsSourcePermitted (ipWhitelist ParseIP cfg) sourceIP = false →
          ConnStage.negotiate ∉ serveConn (ipWhitelist ParseIP cfg) sourceIP)
      ∧ (IsSourcePermitted (ipWhitelist ParseIP cfg) sourceIP = true →
          serveConn (ipWhitelist ParseIP cfg) sourceIP = [.sourceCheck true, .negotiate]) := by
  refine ⟨?_, ?_, ?_, ?_, ?_⟩
  · intro h
    simp [ipWhitelist, h, IsSourcePermitted]
  · intro h
    have hlen : cfg.AllowedIPs.length > 0 := List.length_pos.mpr h
    simp [ipWhitelist, hlen, IsSourcePermitted, h]
  · cases hperm : IsSourcePermitted (ipWhitelist ParseIP cfg) sourceIP with
    | true => exact ⟨_, by simp only [serveConn, hperm, if_true]; rfl⟩
    | false => exact ⟨_, by simp only [serveConn, hperm]; rfl⟩
  · intro h
    simp [serveConn, h]
  · intro h
    simp [serveConn, h]

/-- C9 with allowed-source-ips = ["10.0.0.1"]: a connection from 10.0.0.2 is
rejected without negotiation, one from 10.0.0.1 proceeds to negotiation. -/
theorem C9_source_check_witness :
    cfgSourceFilter.AllowedIPs ≠ []
      ∧ IsSourcePermitted (ipWhitelist parseTwo cfgSourceFilter) (parseTwo "10.0.0.2") = false
      ∧ serveConn (ipWhitelist parseTwo cfgSourceFilter) (parseTwo "10.0.0.2")
          = [.sourceCheck false, .reject]
      ∧ ConnStage.negotiate ∉
          serveConn (ipWhitelist parseTwo cfgSourceFilter) (parseTwo "10.0.0.2")
      ∧ IsSourcePermitted (ipWhitelist parseTwo cfgSourceFilter) (parseTwo "10.0.0.1") = true
      ∧ serveConn (ipWhitelist parseTwo cfgSourceFilter) (parseTwo "10.0.0.1")
          = [.sourceCheck true, .negotiate] :=
  have h2 := C9_source_check parseTwo cfgSourceFilter (parseTwo "10.0.0.2")
  have h1 := C9_source_check parseTwo cfgSourceFilter (parseTwo "10.0.0.1")
  have hp1 : IsSourcePermitted (ipWhitelist parseTwo cfgSourceFilter) (parseTwo "10.0.0.1")
      = true := (h1.2.1 (by decide)).2 (by decide)
  ⟨by decide, by decide, by decide, h2.2.2.2.1 (by decide), hp1, h1.2.2.2.2 hp1⟩

/-- C10: for every destination hostname, when allowed-destination-pattern is
empty `main` installs no rule and the hostname is permitted; when it is a
non-empty pattern `main` installs the rule for that pattern and the hostname is
permitted exactly when it matches the pattern as a wildcard pattern. -/
theorem C10_destination_rule (cfg : params) (hostname : String) :
    (cfg.AllowedDestFqdn = "" →
        destRules cfg = none ∧ IsDestinationPermitted (destRules cfg) hostname = true)
      ∧ (cfg.AllowedDestFqdn ≠ "" →
          destRules cfg = some (.PermitDestAddrPattern cfg.AllowedDestFqdn)
          ∧ (IsDestinationPermitted (destRules cfg) hostname = true
              ↔ GlobMatches cfg.AllowedDestFqdn.toList hostname.toList)) := by
  constructor
  · intro h
    simp [destRules, h, IsDestinationPermitted]
  · intro h
    have hd : destRules cfg = some (.PermitDestAddrPattern cfg.AllowedDestFqdn) := by
      simp [destRules, h]
    refine ⟨hd, ?_⟩
    rw [hd]
    simp only [IsDestinationPermitted]
    exact globMatch_iff _ _

/-- C10 with allowed-destination-pattern = "*.example.com": "sub.example.com"
is permitted and "example.org" is denied; with no pattern "example.org" is
permitted. -/
theorem C10_destination_rule_witness :
    cfgDestPattern.AllowedDestFqdn ≠ ""
      ∧ destRules cfgDestPattern = some (.PermitDestAddrPattern "*.example.com")
      ∧ IsDestinationPermitted (destRules cfgDestPattern) "sub.example.com" = true
      ∧ GlobMatches "*.example.com".toList "sub.example.com".toList
      ∧ IsDestinationPermitted (destRules cfgDestPattern) "example.org" = false
      ∧ ¬ GlobMatches "*.example.com".toList "example.org".toList
      ∧ IsDestinationPermitted (destRules cfgTwo) "example.org" = true :=
  have hs := (C10_destination_rule cfgDestPattern "sub.example.com").2 (by decide)
  have ho := (C10_destination_rule cfgDestPattern "example.org").2 (by decide)
  have hd : IsDestinationPermitted (destRules cfgDestPattern) "example.org" = false := by
    decide
  ⟨by decide, hs.1, by decide, hs.2.1 (by decide), hd,
    fun hm => Bool.noConfusion (hd.symm.trans (ho.2.2 hm)),
    ((C10_destination_rule cfgTwo "example.org").1 rfl).2⟩

end Socks5
